import Mathlib

/-
Verification of the MySQL bulk-load-and-merge engine (`src/mysql/method.py`,
class `Operation`) against its natural-language specification.

Shallow embedding:
  * `Col` is the scratch/target schema descriptor (column name, primary-key
    flag, schema default).
  * `myInsert` embeds `Operation._my_insert`: the derivation of the bare
    column list and primary-key list, the removal loops (Python `list.remove`
    removes the first occurrence), and the three-way policy branch
    ('update' / 'ignore' / ValueError).  The built statement is represented
    as a `MergeStmt` AST.
  * `sessionScope` embeds `Operation._session_scope`: try body+commit,
    except rollback and re-raise, finally close.  The session acquisition
    (`scoped` parameter, lines 48-51) has no transactional content and is
    not modelled.
  * `toMysql` embeds `Operation.to_mysql`: policy validation before the
    session opens, scratch-table creation, chunked load (chunksize=1000 from
    line 154), then merge.
  * `execMerge` / `loadBatch` model the external engine (MySQL duplicate-key
    semantics) and the external loader (pandas `DataFrame.to_sql`) from the
    spec, since those are collaborators outside this repository.
Side effects are made explicit: the database state is the committed target
table, and an event trace records session/DDL/load/merge actions.
-/

set_option autoImplicit false

namespace MySQLMethod

/-- Error taxonomy of spec section 7.  The source raises `ValueError` for a
bad policy (modelled as `policyError`); the loader failure is the spec's
`SchemaMismatchError`; `schemaError` is the spec's name for primary-key-count
violations (the source raises nothing of the kind, see claim C5);
`transactionError` stands for arbitrary engine-level failures. -/
inductive Err where
  | policyError
  | schemaError
  | schemaMismatchError
  | transactionError (code : Nat)
deriving DecidableEq

/-- A schema column: name (`Column.key` in SQLAlchemy), primary-key flag and
the schema default used for unset fields. -/
structure Col where
  key : String
  isPk : Bool
  dflt : Int
deriving DecidableEq

/-- A row keyed by column name (a scratch-table row or an incoming record). -/
abbrev SRow := List (String × Int)

/-- A target-table row: auto-increment surrogate id plus the non-key fields. -/
structure TRow where
  id : Nat
  fields : SRow
deriving DecidableEq

/-- The committed target table. -/
abbrev DB := List TRow

/-- Duplicate-key handling of the built statement: `update cols` is the
`ON DUPLICATE KEY UPDATE col=VALUES(col)` clause over `cols`; `ignore` is the
`INSERT IGNORE` variant. -/
inductive OnDup where
  | update (cols : List String)
  | ignore
deriving DecidableEq

/-- The insert-from-select statement built by `_my_insert`:
`INSERT [IGNORE] INTO target (insertCols) SELECT selectCols FROM scratch
[ON DUPLICATE KEY UPDATE ...]`. -/
structure MergeStmt where
  insertCols : List String
  selectCols : List String
  onDup : OnDup
deriving DecidableEq

/-- Python `list.remove(x)`: delete the first occurrence of `x`. -/
def removeFirst {α : Type} [DecidableEq α] (x : α) : List α → List α
  | [] => []
  | y :: ys => if y = x then ys else y :: removeFirst x ys

/-- Embeds lines 87-93 of `_my_insert`: `bare_column_list = [c.key ...]`,
`bare_pk_list = [k.name ...]`, then `for k in bare_pk_list:
bare_column_list.remove(k)`. -/
def mergeableNames (s : List Col) : List String :=
  ((s.filter (·.isPk)).map (·.key)).foldl (fun acc k => removeFirst k acc)
    (s.map (·.key))

/-- Embeds lines 83-84 and 95-96 of `_my_insert`: `column_list = [c ...]`,
`pk_list = [k ...]`, then `for k in pk_list: column_list.remove(k)` (removal
by column object, in parallel with the bare-name removal). -/
def mergeableCols (s : List Col) : List Col :=
  (s.filter (·.isPk)).foldl (fun acc c => removeFirst c acc) s

/-- Embeds `Operation._my_insert` (lines 80-108): derive the column lists and
build the statement; `'update'` adds the `ON DUPLICATE KEY UPDATE` dict over
`bare_column_list`, `'ignore'` adds the `IGNORE` prefix, anything else raises
`ValueError` (the spec's PolicyError). -/
def myInsert (s : List Col) (ifRecordExists : String) : Except Err MergeStmt :=
  if ifRecordExists = "update" then
    Except.ok ⟨mergeableNames s, (mergeableCols s).map (·.key),
      OnDup.update (mergeableNames s)⟩
  else if ifRecordExists = "ignore" then
    Except.ok ⟨mergeableNames s, (mergeableCols s).map (·.key), OnDup.ignore⟩
  else
    Except.error Err.policyError

/-- Modelled from the spec: the engine's evaluation of one selected scratch
row through the statement's select list, paired positionally with the insert
column list (section 4.3: the select and insert lists must align). -/
def selectedRow (stmt : MergeStmt) (r : SRow) : SRow :=
  stmt.insertCols.zip (stmt.selectCols.map (fun c => (r.lookup c).getD 0))

/-- The unique-index value of a row: the tuple of its values at the target's
unique-index columns `idx`. -/
def keyOf (idx : List String) (r : SRow) : List (Option Int) :=
  idx.map (fun c => r.lookup c)

/-- The unique-index value the statement produces for scratch row `r`. -/
def rowKey (idx : List String) (stmt : MergeStmt) (r : SRow) : List (Option Int) :=
  keyOf idx (selectedRow stmt r)

/-- Does some row of `tbl` carry unique-index value `k`? -/
def hasKey (idx : List String) (tbl : DB) (k : List (Option Int)) : Bool :=
  tbl.any (fun t => decide (keyOf idx t.fields = k))

/-- Modelled from the spec: `ON DUPLICATE KEY UPDATE c=VALUES(c)` applied to
an existing row `r` — every field named in `cols` is rewritten to the
incoming value `vals` carries for it. -/
def applyUpdate (cols : List String) (vals r : SRow) : SRow :=
  r.map (fun p => if p.1 ∈ cols then (p.1, (vals.lookup p.1).getD p.2) else p)

/-- Modelled from the spec: the engine updates the (unique) existing row
whose unique-index value matches the incoming one. -/
def updateFirst (idx : List String) (k : List (Option Int)) (cols : List String)
    (vals : SRow) : DB → DB
  | [] => []
  | t :: ts =>
    if keyOf idx t.fields = k then
      { t with fields := applyUpdate cols vals t.fields } :: ts
    else t :: updateFirst idx k cols vals ts

/-- Fresh auto-increment surrogate id. -/
def nextId (tbl : DB) : Nat := (tbl.map (·.id)).foldr Nat.max 0 + 1

/-- Modelled from the spec: the engine processes one source row of the
insert-from-select — on a unique-index conflict it applies the statement's
duplicate-key handling, otherwise it inserts the row with a fresh id. -/
def mergeStep (idx : List String) (stmt : MergeStmt) (tbl : DB) (r : SRow) : DB :=
  let vals := selectedRow stmt r
  let k := keyOf idx vals
  if hasKey idx tbl k then
    match stmt.onDup with
    | OnDup.update cols => updateFirst idx k cols vals tbl
    | OnDup.ignore => tbl
  else tbl ++ [⟨nextId tbl, vals⟩]

/-- Modelled from the spec: executing the built statement merges the scratch
rows into the target one source row at a time, in scratch order. -/
def execMerge (idx : List String) (stmt : MergeStmt) (rows : List SRow) (tbl : DB) : DB :=
  rows.foldl (mergeStep idx stmt) tbl

/-- Is every field of every record a column of the scratch schema's non-key
columns?  (Spec section 3: a record's field set must be a subset of the
scratch table's non-key columns.) -/
def nonPk (s : List Col) : List Col := s.filter (fun c => !c.isPk)

/-- Batch validity check of the bulk loader. -/
def validBatch (s : List Col) (recs : List SRow) : Bool :=
  recs.all (fun rec => rec.all (fun f => (nonPk s).any (fun c => decide (c.key = f.1))))

/-- Modelled from the spec: the scratch row a record produces — every non-key
column in declaration order, unset columns taking the schema's default. -/
def rowOf (s : List Col) (rec : SRow) : SRow :=
  (nonPk s).map (fun c => (c.key, (rec.lookup c.key).getD c.dflt))

/-- Modelled from the spec: the bulk loader (`df.to_sql`, external to this
repository).  A field outside the scratch schema fails the whole batch with
`SchemaMismatchError` (fail-fast, no partial acceptance); otherwise every
record becomes a scratch row with defaults for unset columns. -/
def loadBatch (s : List Col) (recs : List SRow) : Except Err (List SRow) :=
  if validBatch s recs = true then Except.ok (recs.map (rowOf s))
  else Except.error Err.schemaMismatchError

/-- Chunk a list into pieces of size `n` (recursion fuel = list length). -/
def chunkedGo {α : Type} (n : Nat) : Nat → List α → List (List α)
  | 0, _ => []
  | _ + 1, [] => []
  | fuel + 1, a :: l =>
    (a :: l).take n :: chunkedGo n fuel ((a :: l).drop n)

/-- The chunks `df.to_sql(..., chunksize=n)` issues for the batch. -/
def chunked {α : Type} (n : Nat) (l : List α) : List (List α) :=
  chunkedGo n l.length l

/-- Observable actions of one operation: session and transaction control,
scratch-table DDL, one load chunk of a given size, merge execution. -/
inductive Ev where
  | openSession
  | createScratch
  | loadChunk (sz : Nat)
  | execMergeStmt
  | commit
  | rollback
  | close
deriving DecidableEq

/-- Embeds `Operation._session_scope` (lines 36-59): the body runs, then
`session.commit()` inside the `try`; any exception triggers
`session.rollback()` and is re-raised unchanged; `session.close()` runs on
every path (`finally`).  `commitF` is the engine's commit, `body` returns the
pending database and the events it performed.  The result is (outcome,
committed database visible afterwards, event trace). -/
def sessionScope (commitF : DB → Except Err DB)
    (body : DB → Except Err DB × List Ev) (db : DB) :
    Except Err Unit × DB × List Ev :=
  match body db with
  | (Except.ok pending, evs) =>
    match commitF pending with
    | Except.ok newBase =>
      (Except.ok (), newBase, Ev.openSession :: evs ++ [Ev.commit, Ev.close])
    | Except.error e =>
      (Except.error e, db, Ev.openSession :: evs ++ [Ev.rollback, Ev.close])
  | (Except.error e, evs) =>
    (Except.error e, db, Ev.openSession :: evs ++ [Ev.rollback, Ev.close])

/-- The three fallible stages `to_mysql` runs inside the session scope:
scratch-table creation, bulk load, merge execution.  Each yields its result
and the events it performed. -/
structure Steps where
  create : Except Err Unit × List Ev
  load : Except Err (List SRow) × List Ev
  merge : List SRow → DB → Except Err DB × List Ev

/-- The body `to_mysql` runs inside the session scope (lines 150-163):
create the scratch table, load the batch (`raise e` re-raises the loader's
error unchanged), then execute the merge in the `else` branch. -/
def opBody (st : Steps) (db : DB) : Except Err DB × List Ev :=
  match st.create with
  | (Except.error e, evs) => (Except.error e, evs)
  | (Except.ok _, evs1) =>
    match st.load with
    | (Except.error e, evs2) => (Except.error e, evs1 ++ evs2)
    | (Except.ok rows, evs2) =>
      match st.merge rows db with
      | (Except.error e, evs3) => (Except.error e, evs1 ++ evs2 ++ evs3)
      | (Except.ok db2, evs3) => (Except.ok db2, evs1 ++ evs2 ++ evs3)

/-- The session-scoped part of `to_mysql`: the staged body under
`_session_scope`, with an always-succeeding engine commit. -/
def runOp (st : Steps) (db : DB) : Except Err Unit × DB × List Ev :=
  sessionScope Except.ok (opBody st) db

/-- The concrete stages of `to_mysql`: scratch creation (fresh table, always
succeeds), chunked load with chunksize 1000 (line 154), and execution of the
statement `_my_insert` builds. -/
def concreteSteps (s : List Col) (idx : List String) (recs : List SRow)
    (policy : String) : Steps where
  create := (Except.ok (), [Ev.createScratch])
  load :=
    match loadBatch s recs with
    | Except.ok rows =>
      (Except.ok rows, (chunked 1000 rows).map (fun c => Ev.loadChunk c.length))
    | Except.error e => (Except.error e, [])
  merge := fun rows db =>
    match myInsert s policy with
    | Except.ok stmt => (Except.ok (execMerge idx stmt rows db), [Ev.execMergeStmt])
    | Except.error e => (Except.error e, [])

/-- Embeds `Operation.to_mysql` (lines 110-163): the policy is validated
first (lines 144-145, before any session is opened); then the staged body
runs under the session scope.  `idx` is the target table's unique index, on
which the engine's duplicate detection relies implicitly. -/
def toMysql (s : List Col) (idx : List String) (recs : List SRow)
    (policy : String) (db : DB) : Except Err Unit × DB × List Ev :=
  if policy = "update" ∨ policy = "ignore" then
    runOp (concreteSteps s idx recs policy) db
  else
    (Except.error Err.policyError, db, [])

theorem foldl_removeFirst_cons {α : Type} [DecidableEq α] (rs : List α) (c : α)
    (acc : List α) (h : ∀ x ∈ rs, x ≠ c) :
    rs.foldl (fun a x => removeFirst x a) (c :: acc)
      = c :: rs.foldl (fun a x => removeFirst x a) acc := by
  induction rs generalizing acc with
  | nil => rfl
  | cons r rs ih =>
    have hcr : c ≠ r := Ne.symm (h r (List.mem_cons_self r rs))
    simp only [List.foldl_cons]
    rw [show removeFirst r (c :: acc) = c :: removeFirst r acc from by
      simp [removeFirst, hcr]]
    exact ih _ (fun x hx => h x (List.mem_cons_of_mem r hx))

theorem foldl_removeFirst_filter {α : Type} [DecidableEq α] (p : α → Bool)
    (l : List α) (h : l.Nodup) :
    (l.filter p).foldl (fun acc x => removeFirst x acc) l
      = l.filter (fun x => !p x) := by
  induction l with
  | nil => rfl
  | cons c cs ih =>
    rw [List.nodup_cons] at h
    obtain ⟨hnotin, hnd⟩ := h
    by_cases hp : p c
    · rw [List.filter_cons_of_pos hp, List.filter_cons_of_neg (by simp [hp])]
      simp only [List.foldl_cons]
      rw [show removeFirst c (c :: cs) = cs from by simp [removeFirst]]
      exact ih hnd
    · rw [List.filter_cons_of_neg (by simp [hp]),
        List.filter_cons_of_pos (by simp [hp])]
      rw [foldl_removeFirst_cons _ c cs
        (fun x hx => fun he => hnotin (he ▸ List.mem_of_mem_filter hx))]
      rw [ih hnd]

/-- With distinct column names, the object-level removal loop of `_my_insert`
yields exactly the non-primary-key columns in declaration order. -/
theorem mergeableCols_eq (s : List Col) (h : (s.map (·.key)).Nodup) :
    mergeableCols s = s.filter (fun c => !c.isPk) := by
  have hs : s.Nodup := List.Nodup.of_map (·.key) h
  unfold mergeableCols
  exact foldl_removeFirst_filter (·.isPk) s hs

/-- With distinct column names, the bare-name removal loop of `_my_insert`
yields exactly the non-primary-key column names in declaration order. -/
theorem mergeableNames_eq (s : List Col) (h : (s.map (·.key)).Nodup) :
    mergeableNames s = (s.filter (fun c => !c.isPk)).map (·.key) := by
  unfold mergeableNames
  induction s with
  | nil => rfl
  | cons c cs ih =>
    simp only [List.map_cons, List.nodup_cons] at h
    obtain ⟨hnotin, hnd⟩ := h
    by_cases hp : c.isPk
    · rw [List.filter_cons_of_pos hp, List.filter_cons_of_neg (by simp [hp])]
      simp only [List.map_cons, List.foldl_cons]
      rw [show removeFirst c.key (c.key :: cs.map (·.key)) = cs.map (·.key) from by
        simp [removeFirst]]
      exact ih hnd
    · rw [List.filter_cons_of_neg (by simp [hp]),
        List.filter_cons_of_pos (by simp [hp])]
      simp only [List.map_cons]
      rw [foldl_removeFirst_cons _ c.key (cs.map (·.key)) ?hne]
      · rw [ih hnd]
      case hne =>
        intro x hx he
        apply hnotin
        rw [← he]
        rcases List.mem_map.mp hx with ⟨d, hd, hdk⟩
        exact hdk ▸ List.mem_map_of_mem (·.key) (List.mem_of_mem_filter hd)

/-- Whatever accepted policy produced an `ok` statement, its column lists are
the two removal-loop results of `_my_insert`. -/
theorem myInsert_ok_shape (s : List Col) (p : String) (stmt : MergeStmt)
    (h : myInsert s p = Except.ok stmt) :
    stmt.insertCols = mergeableNames s
      ∧ stmt.selectCols = (mergeableCols s).map (·.key) := by
  by_cases h1 : p = "update"
  · rw [myInsert, if_pos h1] at h
    injection h with h
    subst h
    exact ⟨rfl, rfl⟩
  · by_cases h2 : p = "ignore"
    · rw [myInsert, if_neg h1, if_pos h2] at h
      injection h with h
      subst h
      exact ⟨rfl, rfl⟩
    · rw [myInsert, if_neg h1, if_neg h2] at h
      simp at h

/-- Claim C6: for a well-formed schema (distinct column names) with exactly
one primary-key column, the mergeable column set is the schema's columns in
declaration order with the primary key excluded, and the insert column list
and the select column list of the built statement coincide position by
position. -/
theorem spec_c6_column_lists_aligned (s : List Col) (policy : String)
    (stmt : MergeStmt)
    (hnames : (s.map (·.key)).Nodup)
    (hpk : (s.filter (·.isPk)).length = 1)
    (hstmt : myInsert s policy = Except.ok stmt) :
    stmt.insertCols = (s.filter (fun c => !c.isPk)).map (·.key)
      ∧ stmt.selectCols = stmt.insertCols := by
  obtain ⟨h1, h2⟩ := myInsert_ok_shape s policy stmt hstmt
  rw [h1, h2, mergeableNames_eq s hnames, mergeableCols_eq s hnames]
  exact ⟨rfl, rfl⟩

/-- Witness for C6 at the schema `users(id PK, email, name)`. -/
theorem spec_c6_witness :
    (⟨["email", "name"], ["email", "name"],
        OnDup.update ["email", "name"]⟩ : MergeStmt).insertCols
        = (([⟨"id", true, 0⟩, ⟨"email", false, 0⟩, ⟨"name", false, 0⟩] : List Col).filter
            (fun c => !c.isPk)).map (·.key)
      ∧ (⟨["email", "name"], ["email", "name"],
          OnDup.update ["email", "name"]⟩ : MergeStmt).selectCols
        = (⟨["email", "name"], ["email", "name"],
            OnDup.update ["email", "name"]⟩ : MergeStmt).insertCols :=
  spec_c6_column_lists_aligned
    [⟨"id", true, 0⟩, ⟨"email", false, 0⟩, ⟨"name", false, 0⟩] "update"
    ⟨["email", "name"], ["email", "name"], OnDup.update ["email", "name"]⟩
    (by decide) (by decide) (by rfl)

/-- Claim C7: for every conflict-policy value outside the accepted pair
('update' is the spec's `overwrite`), building the merge statement fails with
the policy error (source raises `ValueError`, lines 106-107). -/
theorem spec_c7_policy_rejected (s : List Col) (policy : String)
    (h1 : policy ≠ "update") (h2 : policy ≠ "ignore") :
    myInsert s policy = Except.error Err.policyError := by
  simp [myInsert, h1, h2]

/-- Witness for C7 at the concrete policy 'replace'. -/
theorem spec_c7_witness :
    myInsert [⟨"id", true, 0⟩, ⟨"v", false, 0⟩] "replace"
      = Except.error Err.policyError :=
  spec_c7_policy_rejected _ "replace" (by decide) (by decide)

/-- Claim C10: for every policy outside the accepted pair, `to_mysql` raises
at lines 144-145 before opening a session or creating the scratch table: the
database is untouched and the event trace is empty. -/
theorem spec_c10_invalid_policy_no_side_effect (s : List Col) (idx : List String)
    (recs : List SRow) (policy : String) (db : DB)
    (h1 : policy ≠ "update") (h2 : policy ≠ "ignore") :
    toMysql s idx recs policy db = (Except.error Err.policyError, db, []) := by
  simp [toMysql, h1, h2]

/-- Witness for C10 at the concrete policy 'overwrite' (the spec's external
name — the source only accepts the literal strings 'update' and 'ignore'). -/
theorem spec_c10_witness :
    toMysql [⟨"id", true, 0⟩, ⟨"v", false, 0⟩] ["v"] [[("v", 3)]] "replace" []
      = (Except.error Err.policyError, [], []) :=
  spec_c10_invalid_policy_no_side_effect _ _ _ "replace" _ (by decide) (by decide)

/-- Counterexample to claim C5 as stated: the source performs no primary-key
count validation at all.  For a schema with two primary-key columns, and for
one with zero, `_my_insert`'s introspection succeeds and builds a statement
instead of raising `SchemaError`. -/
theorem spec_c5_counterexample :
    myInsert [⟨"a", true, 0⟩, ⟨"b", true, 0⟩, ⟨"c", false, 0⟩] "update"
        = Except.ok ⟨["c"], ["c"], OnDup.update ["c"]⟩
      ∧ myInsert [⟨"c", false, 0⟩] "update"
        = Except.ok ⟨["c"], ["c"], OnDup.update ["c"]⟩ := by
  constructor <;> rfl

/-- Claim C5 amended: the code never validates the primary-key count; for
every schema declaring zero or more than one primary-key column,
introspection succeeds (no `SchemaError` is raised, and hence none before
table creation): all declared primary-key columns are silently excluded from
the mergeable set. -/
theorem spec_c5_no_pk_count_validation (s : List Col)
    (h : (s.filter (·.isPk)).length ≠ 1) :
    (∃ stmt, myInsert s "update" = Except.ok stmt)
      ∧ (∃ stmt, myInsert s "ignore" = Except.ok stmt) := by
  exact ⟨⟨⟨mergeableNames s, (mergeableCols s).map (·.key),
        OnDup.update (mergeableNames s)⟩, by simp [myInsert]⟩,
      ⟨⟨mergeableNames s, (mergeableCols s).map (·.key), OnDup.ignore⟩,
        by simp [myInsert]⟩⟩

/-- Witness for C5 (amended) at a two-primary-key schema. -/
theorem spec_c5_witness :
    (∃ stmt, myInsert [⟨"a", true, 0⟩, ⟨"b", true, 0⟩] "update" = Except.ok stmt)
      ∧ (∃ stmt, myInsert [⟨"a", true, 0⟩, ⟨"b", true, 0⟩] "ignore" = Except.ok stmt) :=
  spec_c5_no_pk_count_validation [⟨"a", true, 0⟩, ⟨"b", true, 0⟩] (by decide)

/-- Claim C4: the session scope commits on normal exit; on any error raised
inside the scope (including a failing commit) it rolls back and re-raises
the same error, with the rollback recorded in the trace before the closing
release; and every exit path closes the session (the trace always ends with
`close`). -/
theorem spec_c4_session_scope (commitF : DB → Except Err DB)
    (body : DB → Except Err DB × List Ev) (db : DB) :
    (∀ p evs nb, body db = (Except.ok p, evs) → commitF p = Except.ok nb →
        sessionScope commitF body db
          = (Except.ok (), nb, Ev.openSession :: evs ++ [Ev.commit, Ev.close]))
      ∧ (∀ e evs, body db = (Except.error e, evs) →
        sessionScope commitF body db
          = (Except.error e, db, Ev.openSession :: evs ++ [Ev.rollback, Ev.close]))
      ∧ (∀ p evs e, body db = (Except.ok p, evs) → commitF p = Except.error e →
        sessionScope commitF body db
          = (Except.error e, db, Ev.openSession :: evs ++ [Ev.rollback, Ev.close]))
      ∧ (∃ pre, (sessionScope commitF body db).2.2 = pre ++ [Ev.close]) := by
  refine ⟨?_, ?_, ?_, ?_⟩
  · intro p evs nb hb hc
    simp [sessionScope, hb, hc]
  · intro e evs hb
    simp [sessionScope, hb]
  · intro p evs e hb hc
    simp [sessionScope, hb, hc]
  · rcases hb : body db with ⟨r, evs⟩
    cases r with
    | ok p =>
      cases hc : commitF p with
      | ok nb =>
        exact ⟨Ev.openSession :: evs ++ [Ev.commit], by simp [sessionScope, hb, hc]⟩
      | error e =>
        exact ⟨Ev.openSession :: evs ++ [Ev.rollback], by simp [sessionScope, hb, hc]⟩
    | error e =>
      exact ⟨Ev.openSession :: evs ++ [Ev.rollback], by simp [sessionScope, hb]⟩

/-- Witness for C4: a concrete failing body rolls back, re-raises the same
error and closes. -/
theorem spec_c4_witness :
    sessionScope Except.ok (fun _ => (Except.error Err.schemaMismatchError, [Ev.createScratch])) []
      = (Except.error Err.schemaMismatchError, [],
          [Ev.openSession, Ev.createScratch, Ev.rollback, Ev.close]) :=
  (spec_c4_session_scope Except.ok
      (fun _ => (Except.error Err.schemaMismatchError, [Ev.createScratch])) []).2.1
    Err.schemaMismatchError [Ev.createScratch] rfl

/-- Claim C1: whichever of the three staged actions (scratch creation, bulk
load, merge execution) fails, and with whatever error, the session-scoped
run of the operation propagates that same error, performs a rollback before
the re-raise (recorded ahead of `close` in the trace), and leaves the
committed target table unchanged. -/
theorem spec_c1_failure_rolls_back (st : Steps) (db : DB) (e : Err)
    (h : st.create.1 = Except.error e
        ∨ ((∃ u, st.create.1 = Except.ok u) ∧ st.load.1 = Except.error e)
        ∨ ((∃ u, st.create.1 = Except.ok u)
            ∧ ∃ rows, st.load.1 = Except.ok rows
              ∧ (st.merge rows db).1 = Except.error e)) :
    (runOp st db).1 = Except.error e ∧ (runOp st db).2.1 = db
      ∧ ∃ pre, (runOp st db).2.2 = Ev.openSession :: pre ++ [Ev.rollback, Ev.close] := by
  obtain ⟨⟨cr, ce⟩, ⟨lr, le⟩, mg⟩ := st
  rcases h with hc | ⟨⟨u, hc⟩, hl⟩ | ⟨⟨u, hc⟩, rows, hl, hm⟩
  · simp only at hc
    subst hc
    exact ⟨by simp [runOp, sessionScope, opBody], by simp [runOp, sessionScope, opBody],
      ce, by simp [runOp, sessionScope, opBody]⟩
  · simp only at hc hl
    subst hc; subst hl
    exact ⟨by simp [runOp, sessionScope, opBody], by simp [runOp, sessionScope, opBody],
      ce ++ le, by simp [runOp, sessionScope, opBody]⟩
  · simp only at hc hl hm
    subst hc; subst hl
    rcases hmg : mg rows db with ⟨mr, me⟩
    rw [hmg] at hm
    simp only at hm
    subst hm
    exact ⟨by simp [runOp, sessionScope, opBody, hmg],
      by simp [runOp, sessionScope, opBody, hmg],
      ce ++ le ++ me, by simp [runOp, sessionScope, opBody, hmg]⟩

/-- Witness for C1: a concrete run whose load stage fails. -/
theorem spec_c1_witness :
    (runOp ⟨(Except.ok (), [Ev.createScratch]), (Except.error Err.schemaMismatchError, []),
        fun _ _ => (Except.ok [], [])⟩ []).1 = Except.error Err.schemaMismatchError
      ∧ (runOp ⟨(Except.ok (), [Ev.createScratch]), (Except.error Err.schemaMismatchError, []),
          fun _ _ => (Except.ok [], [])⟩ []).2.1 = []
      ∧ ∃ pre, (runOp ⟨(Except.ok (), [Ev.createScratch]),
          (Except.error Err.schemaMismatchError, []),
          fun _ _ => (Except.ok [], [])⟩ []).2.2
            = Ev.openSession :: pre ++ [Ev.rollback, Ev.close] :=
  spec_c1_failure_rolls_back _ [] Err.schemaMismatchError
    (Or.inr (Or.inl ⟨⟨(), rfl⟩, rfl⟩))

/-- Claim C8: a batch containing any field outside the scratch schema's
non-key columns fails as a whole with `SchemaMismatchError` and the target
table is unchanged (the session rolls back); a batch whose records use only
a subset of the scratch columns loads successfully, with unset columns
taking the schema's default.  The loader itself is modelled from the spec
(pandas `DataFrame.to_sql` is external to this repository; the source's own
comment at lines 155-158 documents the same behaviour). -/
theorem spec_c8_schema_mismatch (s : List Col) (idx : List String)
    (recs : List SRow) (policy : String) (db : DB)
    (hp : policy = "update" ∨ policy = "ignore") :
    ((∃ rec ∈ recs, ∃ f ∈ rec, ∀ c ∈ nonPk s, c.key ≠ f.1) →
      toMysql s idx recs policy db
        = (Except.error Err.schemaMismatchError, db,
            [Ev.openSession, Ev.createScratch, Ev.rollback, Ev.close]))
      ∧ ((∀ rec ∈ recs, ∀ f ∈ rec, ∃ c ∈ nonPk s, c.key = f.1) →
        ∃ rows, loadBatch s recs = Except.ok rows
          ∧ rows = recs.map (rowOf s)
          ∧ ∀ rec ∈ recs, ∀ c ∈ nonPk s, rec.lookup c.key = none →
              (c.key, c.dflt) ∈ rowOf s rec) := by
  constructor
  · intro He
    have hvb : validBatch s recs = false := by
      cases hv : validBatch s recs with
      | false => rfl
      | true =>
        exfalso
        rcases He with ⟨rec, hrec, f, hf, hall⟩
        rw [validBatch, List.all_eq_true] at hv
        have h1 := (List.all_eq_true.mp (hv rec hrec)) f hf
        rw [List.any_eq_true] at h1
        obtain ⟨c, hc, hd⟩ := h1
        exact hall c hc (of_decide_eq_true hd)
    have hload : loadBatch s recs = Except.error Err.schemaMismatchError := by
      rw [loadBatch, if_neg (by simp [hvb])]
    rcases hp with rfl | rfl <;>
      simp [toMysql, runOp, sessionScope, opBody, concreteSteps, hload]
  · intro hall
    have hvb : validBatch s recs = true := by
      rw [validBatch, List.all_eq_true]
      intro rec hrec
      rw [List.all_eq_true]
      intro f hf
      rw [List.any_eq_true]
      obtain ⟨c, hc, he⟩ := hall rec hrec f hf
      exact ⟨c, hc, decide_eq_true he⟩
    refine ⟨recs.map (rowOf s), by simp [loadBatch, hvb], rfl, ?_⟩
    intro rec _ c hc hnone
    have hm : (c.key, (rec.lookup c.key).getD c.dflt) ∈ rowOf s rec :=
      List.mem_map_of_mem (fun c => (c.key, (rec.lookup c.key).getD c.dflt)) hc
    simpa [hnone] using hm

/-- Witness for C8: a one-record batch whose field `zzz` is outside the
schema `(id PK, v)` aborts the whole operation with the schema-mismatch
error and leaves the target unchanged. -/
theorem spec_c8_witness :
    toMysql [⟨"id", true, 0⟩, ⟨"v", false, 0⟩] ["v"] [[("zzz", 1)]] "ignore"
        [⟨1, [("v", 5)]⟩]
      = (Except.error Err.schemaMismatchError, [⟨1, [("v", 5)]⟩],
          [Ev.openSession, Ev.createScratch, Ev.rollback, Ev.close]) :=
  (spec_c8_schema_mismatch [⟨"id", true, 0⟩, ⟨"v", false, 0⟩] ["v"] [[("zzz", 1)]]
      "ignore" [⟨1, [("v", 5)]⟩] (Or.inr rfl)).1 (by decide)

theorem chunkedGo_nil {α : Type} (n fuel : Nat) :
    chunkedGo n fuel ([] : List α) = [] := by
  cases fuel <;> rfl

theorem chunkedGo_succ_of_ne {α : Type} (n fuel : Nat) (l : List α) (h : l ≠ []) :
    chunkedGo n (fuel + 1) l = l.take n :: chunkedGo n fuel (l.drop n) := by
  cases l with
  | nil => cases h rfl
  | cons a t => rfl

/-- A 2,500-element batch loaded with chunk size 1,000 produces exactly the
chunk events of sizes 1000, 1000, 500. -/
theorem chunk_sizes_2500 (l : List SRow) (h : l.length = 2500) :
    (chunked 1000 l).map (fun c => Ev.loadChunk c.length)
      = [Ev.loadChunk 1000, Ev.loadChunk 1000, Ev.loadChunk 500] := by
  have h0 : l ≠ [] := by
    intro he
    rw [he] at h
    simp at h
  have hd1 : (l.drop 1000).length = 1500 := by rw [List.length_drop, h]
  have hd2 : ((l.drop 1000).drop 1000).length = 500 := by
    rw [List.length_drop, hd1]
  have h1 : l.drop 1000 ≠ [] := by
    intro he
    rw [he] at hd1
    simp at hd1
  have h2 : (l.drop 1000).drop 1000 ≠ [] := by
    intro he
    rw [he] at hd2
    simp at hd2
  have hd3 : ((l.drop 1000).drop 1000).drop 1000 = [] := by
    apply List.eq_nil_of_length_eq_zero
    rw [List.length_drop, hd2]
  rw [chunked, h]
  rw [show (2500 : Nat) = 2499 + 1 from rfl, chunkedGo_succ_of_ne _ _ _ h0]
  rw [show (2499 : Nat) = 2498 + 1 from rfl, chunkedGo_succ_of_ne _ _ _ h1]
  rw [show (2498 : Nat) = 2497 + 1 from rfl, chunkedGo_succ_of_ne _ _ _ h2]
  rw [hd3, chunkedGo_nil]
  simp [List.length_take, h, hd1, hd2]

/-- Claim C9: for a valid batch of 2,500 records under an accepted policy,
the operation executes exactly 3 load chunks (1000, 1000, 500), all 2,500
rows are in the scratch table handed to the merge, and the merge statement
executes only after the load chunks in the trace. -/
theorem spec_c9_chunked_load (s : List Col) (idx : List String)
    (recs : List SRow) (policy : String) (db : DB)
    (hp : policy = "update" ∨ policy = "ignore")
    (hlen : recs.length = 2500)
    (hvalid : validBatch s recs = true) :
    ∃ rows stmt, loadBatch s recs = Except.ok rows ∧ rows.length = 2500
      ∧ myInsert s policy = Except.ok stmt
      ∧ toMysql s idx recs policy db
        = (Except.ok (), execMerge idx stmt rows db,
            [Ev.openSession, Ev.createScratch, Ev.loadChunk 1000,
              Ev.loadChunk 1000, Ev.loadChunk 500, Ev.execMergeStmt,
              Ev.commit, Ev.close]) := by
  have hload : loadBatch s recs = Except.ok (recs.map (rowOf s)) := by
    simp [loadBatch, hvalid]
  have hrlen : (recs.map (rowOf s)).length = 2500 := by
    rw [List.length_map, hlen]
  have hchunks := chunk_sizes_2500 (recs.map (rowOf s)) hrlen
  rcases hp with rfl | rfl
  · refine ⟨recs.map (rowOf s),
      ⟨mergeableNames s, (mergeableCols s).map (·.key),
        OnDup.update (mergeableNames s)⟩, hload, hrlen, by simp [myInsert], ?_⟩
    simp [toMysql, runOp, sessionScope, opBody, concreteSteps, hload, myInsert,
      hchunks]
  · refine ⟨recs.map (rowOf s),
      ⟨mergeableNames s, (mergeableCols s).map (·.key), OnDup.ignore⟩,
      hload, hrlen, by simp [myInsert], ?_⟩
    simp [toMysql, runOp, sessionScope, opBody, concreteSteps, hload, myInsert,
      hchunks]

/-- Witness for C9: a concrete batch of 2,500 empty records (all columns
defaulted) under the 'ignore' policy. -/
theorem spec_c9_witness :
    ∃ rows stmt,
      loadBatch [⟨"id", true, 0⟩, ⟨"k", false, 7⟩] (List.replicate 2500 [])
          = Except.ok rows
        ∧ rows.length = 2500
        ∧ myInsert [⟨"id", true, 0⟩, ⟨"k", false, 7⟩] "ignore" = Except.ok stmt
        ∧ toMysql [⟨"id", true, 0⟩, ⟨"k", false, 7⟩] ["k"]
            (List.replicate 2500 []) "ignore" []
          = (Except.ok (), execMerge ["k"] stmt rows [],
              [Ev.openSession, Ev.createScratch, Ev.loadChunk 1000,
                Ev.loadChunk 1000, Ev.loadChunk 500, Ev.execMergeStmt,
                Ev.commit, Ev.close]) :=
  spec_c9_chunked_load [⟨"id", true, 0⟩, ⟨"k", false, 7⟩] ["k"]
    (List.replicate 2500 []) "ignore" [] (Or.inr rfl)
    (List.length_replicate 2500 [])
    (by
      rw [validBatch, List.all_eq_true]
      intro rec hrec
      rw [List.eq_of_mem_replicate hrec]
      rfl)

theorem execMerge_nil (idx : List String) (stmt : MergeStmt) (tbl : DB) :
    execMerge idx stmt [] tbl = tbl := rfl

theorem execMerge_cons (idx : List String) (stmt : MergeStmt) (r : SRow)
    (rs : List SRow) (tbl : DB) :
    execMerge idx stmt (r :: rs) tbl
      = execMerge idx stmt rs (mergeStep idx stmt tbl r) := rfl

theorem hasKey_iff (idx : List String) (tbl : DB) (k : List (Option Int)) :
    hasKey idx tbl k = true ↔ ∃ t ∈ tbl, keyOf idx t.fields = k := by
  simp [hasKey, List.any_eq_true]

theorem hasKey_append (idx : List String) (t1 t2 : DB) (k : List (Option Int)) :
    hasKey idx (t1 ++ t2) k = (hasKey idx t1 k || hasKey idx t2 k) := by
  simp [hasKey, List.any_append]

theorem mergeStep_ignore (idx : List String) (stmt : MergeStmt)
    (hst : stmt.onDup = OnDup.ignore) (tbl : DB) (r : SRow) :
    mergeStep idx stmt tbl r
      = if hasKey idx tbl (rowKey idx stmt r) then tbl
        else tbl ++ [⟨nextId tbl, selectedRow stmt r⟩] := by
  obtain ⟨ic, sc, od⟩ := stmt
  change od = OnDup.ignore at hst
  subst hst
  rfl

theorem ignore_step_mono (idx : List String) (stmt : MergeStmt)
    (hst : stmt.onDup = OnDup.ignore) (tbl : DB) (r : SRow)
    (k : List (Option Int)) (h : hasKey idx tbl k = true) :
    hasKey idx (mergeStep idx stmt tbl r) k = true := by
  rw [mergeStep_ignore idx stmt hst]
  by_cases hk : hasKey idx tbl (rowKey idx stmt r) = true
  · rw [if_pos hk]
    exact h
  · rw [if_neg hk, hasKey_append, h]
    rfl

theorem ignore_foldl_mono (idx : List String) (stmt : MergeStmt)
    (hst : stmt.onDup = OnDup.ignore) :
    ∀ (rows : List SRow) (tbl : DB) (k : List (Option Int)),
      hasKey idx tbl k = true → hasKey idx (execMerge idx stmt rows tbl) k = true := by
  intro rows
  induction rows with
  | nil => intro tbl k h; exact h
  | cons r rs ih =>
    intro tbl k h
    rw [execMerge_cons]
    exact ih _ k (ignore_step_mono idx stmt hst tbl r k h)

theorem ignore_key_present (idx : List String) (stmt : MergeStmt)
    (hst : stmt.onDup = OnDup.ignore) :
    ∀ (rows : List SRow) (tbl : DB) (r : SRow), r ∈ rows →
      hasKey idx (execMerge idx stmt rows tbl) (rowKey idx stmt r) = true := by
  intro rows
  induction rows with
  | nil => intro tbl r h; cases h
  | cons r0 rs ih =>
    intro tbl r hr
    rw [execMerge_cons]
    rcases List.mem_cons.mp hr with rfl | hr'
    · apply ignore_foldl_mono idx stmt hst
      rw [mergeStep_ignore idx stmt hst]
      by_cases hk : hasKey idx tbl (rowKey idx stmt r) = true
      · rw [if_pos hk]
        exact hk
      · rw [if_neg hk, hasKey_append]
        have : hasKey idx [⟨nextId tbl, selectedRow stmt r⟩] (rowKey idx stmt r) = true := by
          simp [hasKey, rowKey]
        rw [this, Bool.or_true]
    · exact ih (mergeStep idx stmt tbl r0) r hr'

theorem ignore_skip (idx : List String) (stmt : MergeStmt)
    (hst : stmt.onDup = OnDup.ignore) :
    ∀ (rows : List SRow) (tbl : DB),
      (∀ r ∈ rows, hasKey idx tbl (rowKey idx stmt r) = true) →
      execMerge idx stmt rows tbl = tbl := by
  intro rows
  induction rows with
  | nil => intro tbl _; rfl
  | cons r rs ih =>
    intro tbl h
    rw [execMerge_cons, mergeStep_ignore idx stmt hst,
      if_pos (h r (List.mem_cons_self r rs))]
    exact ih tbl (fun x hx => h x (List.mem_cons_of_mem r hx))

theorem ignore_count (idx : List String) (stmt : MergeStmt)
    (hst : stmt.onDup = OnDup.ignore) :
    ∀ (rows : List SRow) (tbl : DB),
      (rows.map (rowKey idx stmt)).Nodup →
      (execMerge idx stmt rows tbl).length
        = tbl.length
          + (rows.filter (fun r => !hasKey idx tbl (rowKey idx stmt r))).length := by
  intro rows
  induction rows with
  | nil => intro tbl _; simp [execMerge_nil]
  | cons r rs ih =>
    intro tbl hnd
    rw [List.map_cons, List.nodup_cons] at hnd
    obtain ⟨hnotin, hnd⟩ := hnd
    rw [execMerge_cons, mergeStep_ignore idx stmt hst]
    by_cases hk : hasKey idx tbl (rowKey idx stmt r) = true
    · rw [if_pos hk, ih tbl hnd, List.filter_cons]
      simp [hk]
    · have hk' : hasKey idx tbl (rowKey idx stmt r) = false :=
        Bool.eq_false_iff.mpr hk
      rw [if_neg hk, ih _ hnd, List.length_append]
      have hcong : ∀ x ∈ rs,
          (!hasKey idx (tbl ++ [⟨nextId tbl, selectedRow stmt r⟩]) (rowKey idx stmt x))
            = (!hasKey idx tbl (rowKey idx stmt x)) := by
        intro x hx
        rw [hasKey_append]
        have hnew : hasKey idx [⟨nextId tbl, selectedRow stmt r⟩]
            (rowKey idx stmt x) = false := by
          simp only [hasKey, List.any_cons, List.any_nil, Bool.or_false]
          rw [decide_eq_false_iff_not]
          intro he
          have h2 : rowKey idx stmt r = rowKey idx stmt x := he
          exact hnotin (by
            rw [h2]
            exact List.mem_map_of_mem (rowKey idx stmt) hx)
        rw [hnew, Bool.or_false]
      rw [List.filter_congr hcong, List.filter_cons]
      simp [hk']
      omega

/-- Claim C3 (amended: the batch's unique-index values are pairwise
distinct): under the 'ignore' policy the target's row count afterwards is
the count before plus the number of batch rows whose unique-index value is
absent from the target, and re-running the identical merge a second time
leaves the target exactly as after the first run. -/
theorem spec_c3_ignore_count_idempotent (s : List Col) (idx : List String)
    (rows : List SRow) (tbl : DB) (stmt : MergeStmt)
    (hstmt : myInsert s "ignore" = Except.ok stmt)
    (hnd : (rows.map (rowKey idx stmt)).Nodup) :
    (execMerge idx stmt rows tbl).length
      = tbl.length
        + (rows.filter (fun r => !hasKey idx tbl (rowKey idx stmt r))).length
      ∧ execMerge idx stmt rows (execMerge idx stmt rows tbl)
        = execMerge idx stmt rows tbl := by
  have hst : stmt.onDup = OnDup.ignore := by
    rw [myInsert, if_neg (by decide), if_pos rfl] at hstmt
    injection hstmt with h
    subst h
    rfl
  exact ⟨ignore_count idx stmt hst rows tbl hnd,
    ignore_skip idx stmt hst rows _
      (fun r hr => ignore_key_present idx stmt hst rows tbl r hr)⟩

/-- Witness for C3: schema `(id PK, k, v)`, unique index on `k`, target
holding one row with `k=1`, batch rows with keys 1 (present) and 2 (new). -/
theorem spec_c3_witness :
    (execMerge ["k"] ⟨["k", "v"], ["k", "v"], OnDup.ignore⟩
        [[("k", 1), ("v", 10)], [("k", 2), ("v", 20)]]
        [⟨1, [("k", 1), ("v", 0)]⟩]).length
      = ([⟨1, [("k", 1), ("v", 0)]⟩] : DB).length
        + (([[("k", 1), ("v", 10)], [("k", 2), ("v", 20)]] : List SRow).filter
            (fun r => !hasKey ["k"] [⟨1, [("k", 1), ("v", 0)]⟩]
              (rowKey ["k"] ⟨["k", "v"], ["k", "v"], OnDup.ignore⟩ r))).length
      ∧ execMerge ["k"] ⟨["k", "v"], ["k", "v"], OnDup.ignore⟩
          [[("k", 1), ("v", 10)], [("k", 2), ("v", 20)]]
          (execMerge ["k"] ⟨["k", "v"], ["k", "v"], OnDup.ignore⟩
            [[("k", 1), ("v", 10)], [("k", 2), ("v", 20)]]
            [⟨1, [("k", 1), ("v", 0)]⟩])
        = execMerge ["k"] ⟨["k", "v"], ["k", "v"], OnDup.ignore⟩
            [[("k", 1), ("v", 10)], [("k", 2), ("v", 20)]]
            [⟨1, [("k", 1), ("v", 0)]⟩] :=
  spec_c3_ignore_count_idempotent [⟨"id", true, 0⟩, ⟨"k", false, 0⟩, ⟨"v", false, 0⟩]
    ["k"] [[("k", 1), ("v", 10)], [("k", 2), ("v", 20)]]
    [⟨1, [("k", 1), ("v", 0)]⟩] ⟨["k", "v"], ["k", "v"], OnDup.ignore⟩
    (by rfl) (by decide)

/-- Counterexample to claim C3 as stated: with a batch whose two rows carry
the same new unique-index value (`k=1` twice), the engine inserts the first
and ignores the second, so the final count is 1, not 0 + 2 as the claim's
count formula demands. -/
theorem spec_c3_counterexample :
    myInsert [⟨"id", true, 0⟩, ⟨"k", false, 0⟩] "ignore"
        = Except.ok ⟨["k"], ["k"], OnDup.ignore⟩
      ∧ ¬ ((execMerge ["k"] ⟨["k"], ["k"], OnDup.ignore⟩
            [[("k", 1)], [("k", 1)]] ([] : DB)).length
        = ([] : DB).length
          + (([[("k", 1)], [("k", 1)]] : List SRow).filter
              (fun r => !hasKey ["k"] ([] : DB)
                (rowKey ["k"] ⟨["k"], ["k"], OnDup.ignore⟩ r))).length) := by
  exact ⟨by rfl, by decide⟩

theorem mergeStep_update (idx : List String) (stmt : MergeStmt)
    (cols : List String) (hst : stmt.onDup = OnDup.update cols) (tbl : DB)
    (r : SRow) :
    mergeStep idx stmt tbl r
      = if hasKey idx tbl (rowKey idx stmt r) then
          updateFirst idx (rowKey idx stmt r) cols (selectedRow stmt r) tbl
        else tbl ++ [⟨nextId tbl, selectedRow stmt r⟩] := by
  obtain ⟨ic, sc, od⟩ := stmt
  change od = OnDup.update cols at hst
  subst hst
  rfl

theorem lookup_zip_map (cols : List String) (g : String → Int) (n : String)
    (hn : n ∈ cols) :
    (cols.zip (cols.map g)).lookup n = some (g n) := by
  induction cols with
  | nil => cases hn
  | cons c cs ih =>
    rw [List.map_cons, List.zip_cons_cons]
    by_cases h : n = c
    · subst h
      simp [List.lookup]
    · rw [List.lookup, beq_false_of_ne h]
      exact ih (by
        rcases List.mem_cons.mp hn with he | hm
        · exact absurd he h
        · exact hm)

theorem applyUpdate_map_fst (cols : List String) (vals f : SRow) :
    (applyUpdate cols vals f).map Prod.fst = f.map Prod.fst := by
  induction f with
  | nil => rfl
  | cons p ps ih =>
    unfold applyUpdate at ih ⊢
    rw [List.map_cons, List.map_cons, List.map_cons]
    by_cases hp : p.1 ∈ cols
    · rw [if_pos hp, ih]
    · rw [if_neg hp, ih]

theorem applyUpdate_sub (cols : List String) (g : String → Int) (f : SRow)
    (hsub : ∀ p ∈ f, p.1 ∈ cols) :
    applyUpdate cols (cols.zip (cols.map g)) f
      = f.map (fun p => (p.1, g p.1)) := by
  induction f with
  | nil => rfl
  | cons p ps ih =>
    unfold applyUpdate at ih ⊢
    rw [List.map_cons, List.map_cons]
    have hp : p.1 ∈ cols := hsub p (List.mem_cons_self p ps)
    rw [if_pos hp, lookup_zip_map cols g p.1 hp,
      ih (fun q hq => hsub q (List.mem_cons_of_mem p hq))]
    rfl

theorem map_fst_pairs (f : SRow) (g : String → Int) :
    f.map (fun p => (p.1, g p.1))
      = (f.map Prod.fst).zip ((f.map Prod.fst).map g) := by
  induction f with
  | nil => rfl
  | cons p ps ih =>
    rw [List.map_cons, List.map_cons, List.map_cons, List.zip_cons_cons, ih]

theorem applyUpdate_eq_vals (cols : List String) (g : String → Int) (f : SRow)
    (hf : f.map Prod.fst = cols) :
    applyUpdate cols (cols.zip (cols.map g)) f = cols.zip (cols.map g) := by
  rw [applyUpdate_sub cols g f
      (fun p hp => hf ▸ List.mem_map_of_mem Prod.fst hp),
    map_fst_pairs f g, hf]

theorem updateFirst_keep (idx : List String) (k : List (Option Int))
    (cols : List String) (vals : SRow) :
    ∀ (tbl : DB) (t : TRow), t ∈ tbl → keyOf idx t.fields ≠ k →
      t ∈ updateFirst idx k cols vals tbl := by
  intro tbl
  induction tbl with
  | nil => intro t h; cases h
  | cons t0 ts ih =>
    intro t ht hne
    simp only [updateFirst]
    by_cases h0 : keyOf idx t0.fields = k
    · rw [if_pos h0]
      rcases List.mem_cons.mp ht with rfl | ht'
      · exact absurd h0 hne
      · exact List.mem_cons_of_mem _ ht'
    · rw [if_neg h0]
      rcases List.mem_cons.mp ht with rfl | ht'
      · exact List.mem_cons_self _ _
      · exact List.mem_cons_of_mem _ (ih t ht' hne)

theorem updateFirst_hit (idx : List String) (k : List (Option Int))
    (cols : List String) (vals : SRow) :
    ∀ (tbl : DB),
      (∃ t ∈ tbl, keyOf idx t.fields = k) →
      (∀ t ∈ tbl, applyUpdate cols vals t.fields = vals) →
      ∃ u ∈ updateFirst idx k cols vals tbl, u.fields = vals := by
  intro tbl
  induction tbl with
  | nil =>
    intro hex _
    rcases hex with ⟨t, ht, _⟩
    cases ht
  | cons t0 ts ih =>
    intro hex hall
    simp only [updateFirst]
    by_cases h0 : keyOf idx t0.fields = k
    · rw [if_pos h0]
      exact ⟨{ t0 with fields := applyUpdate cols vals t0.fields },
        List.mem_cons_self _ _, hall t0 (List.mem_cons_self t0 ts)⟩
    · rw [if_neg h0]
      have hex' : ∃ t ∈ ts, keyOf idx t.fields = k := by
        rcases hex with ⟨t, ht, hk⟩
        rcases List.mem_cons.mp ht with rfl | ht'
        · exact absurd hk h0
        · exact ⟨t, ht', hk⟩
      rcases ih hex' (fun t ht => hall t (List.mem_cons_of_mem t0 ht)) with
        ⟨u, hu, hf⟩
      exact ⟨u, List.mem_cons_of_mem _ hu, hf⟩

/-- Target well-formedness: every row carries exactly the statement's insert
columns (spec section 3: target and scratch share the non-key columns). -/
def wfDB (cols : List String) (tbl : DB) : Prop :=
  ∀ t ∈ tbl, t.fields.map Prod.fst = cols

theorem updateFirst_wf (idx : List String) (k : List (Option Int))
    (cols : List String) (vals : SRow) :
    ∀ (tbl : DB), wfDB cols tbl → wfDB cols (updateFirst idx k cols vals tbl) := by
  intro tbl
  induction tbl with
  | nil => intro _ t ht; cases ht
  | cons t0 ts ih =>
    intro hwf t ht
    simp only [updateFirst] at ht
    by_cases h0 : keyOf idx t0.fields = k
    · rw [if_pos h0] at ht
      rcases List.mem_cons.mp ht with rfl | ht'
      · show (applyUpdate cols vals t0.fields).map Prod.fst = cols
        rw [applyUpdate_map_fst]
        exact hwf t0 (List.mem_cons_self t0 ts)
      · exact hwf t (List.mem_cons_of_mem t0 ht')
    · rw [if_neg h0] at ht
      rcases List.mem_cons.mp ht with rfl | ht'
      · exact hwf t (List.mem_cons_self t ts)
      · exact ih (fun u hu => hwf u (List.mem_cons_of_mem t0 hu)) t ht'

theorem map_fst_selectedRow (cols : List String) (od : OnDup) (r : SRow) :
    (selectedRow ⟨cols, cols, od⟩ r).map Prod.fst = cols := by
  apply List.map_fst_zip
  rw [List.length_map]

theorem mergeStep_update_wf (idx : List String) (cols : List String)
    (tbl : DB) (r : SRow) (hwf : wfDB cols tbl) :
    wfDB cols (mergeStep idx ⟨cols, cols, OnDup.update cols⟩ tbl r) := by
  rw [mergeStep_update idx _ cols rfl]
  by_cases hk : hasKey idx tbl (rowKey idx ⟨cols, cols, OnDup.update cols⟩ r) = true
  · rw [if_pos hk]
    exact updateFirst_wf idx _ cols _ tbl hwf
  · rw [if_neg hk]
    intro t ht
    rcases List.mem_append.mp ht with ht' | ht'
    · exact hwf t ht'
    · rcases List.mem_singleton.mp ht' with rfl
      exact map_fst_selectedRow cols _ r

theorem mergeStep_update_preserve (idx : List String) (cols : List String)
    (tbl : DB) (r : SRow) (vals0 : SRow)
    (hne : rowKey idx ⟨cols, cols, OnDup.update cols⟩ r ≠ keyOf idx vals0)
    (hex : ∃ t ∈ tbl, t.fields = vals0) :
    ∃ t ∈ mergeStep idx ⟨cols, cols, OnDup.update cols⟩ tbl r,
      t.fields = vals0 := by
  rcases hex with ⟨t, ht, hf⟩
  rw [mergeStep_update idx _ cols rfl]
  by_cases hk : hasKey idx tbl (rowKey idx ⟨cols, cols, OnDup.update cols⟩ r) = true
  · rw [if_pos hk]
    refine ⟨t, updateFirst_keep idx _ cols _ tbl t ht ?_, hf⟩
    rw [hf]
    exact fun he => hne he.symm
  · rw [if_neg hk]
    exact ⟨t, List.mem_append_left _ ht, hf⟩

theorem update_foldl_preserve (idx : List String) (cols : List String) :
    ∀ (rows : List SRow) (tbl : DB) (vals0 : SRow),
      (∀ r ∈ rows, rowKey idx ⟨cols, cols, OnDup.update cols⟩ r ≠ keyOf idx vals0) →
      (∃ t ∈ tbl, t.fields = vals0) →
      ∃ t ∈ execMerge idx ⟨cols, cols, OnDup.update cols⟩ rows tbl,
        t.fields = vals0 := by
  intro rows
  induction rows with
  | nil => intro tbl vals0 _ hex; exact hex
  | cons r rs ih =>
    intro tbl vals0 hne hex
    rw [execMerge_cons]
    exact ih _ vals0 (fun x hx => hne x (List.mem_cons_of_mem r hx))
      (mergeStep_update_preserve idx cols tbl r vals0
        (hne r (List.mem_cons_self r rs)) hex)

theorem mergeStep_update_establish (idx : List String) (cols : List String)
    (tbl : DB) (r : SRow) (hwf : wfDB cols tbl) :
    ∃ t ∈ mergeStep idx ⟨cols, cols, OnDup.update cols⟩ tbl r,
      t.fields = selectedRow ⟨cols, cols, OnDup.update cols⟩ r := by
  rw [mergeStep_update idx _ cols rfl]
  by_cases hk : hasKey idx tbl (rowKey idx ⟨cols, cols, OnDup.update cols⟩ r) = true
  · rw [if_pos hk]
    apply updateFirst_hit idx _ cols _ tbl ((hasKey_iff idx tbl _).mp hk)
    intro t ht
    exact applyUpdate_eq_vals cols (fun c => (r.lookup c).getD 0) t.fields (hwf t ht)
  · rw [if_neg hk]
    exact ⟨⟨nextId tbl, selectedRow ⟨cols, cols, OnDup.update cols⟩ r⟩,
      List.mem_append_right _ (List.mem_singleton_self _), rfl⟩

theorem update_presence (idx : List String) (cols : List String) :
    ∀ (rows : List SRow) (tbl : DB),
      wfDB cols tbl →
      (rows.map (rowKey idx ⟨cols, cols, OnDup.update cols⟩)).Nodup →
      ∀ r ∈ rows,
        ∃ t ∈ execMerge idx ⟨cols, cols, OnDup.update cols⟩ rows tbl,
          t.fields = selectedRow ⟨cols, cols, OnDup.update cols⟩ r := by
  intro rows
  induction rows with
  | nil => intro tbl _ _ r h; cases h
  | cons r0 rs ih =>
    intro tbl hwf hnd r hr
    rw [List.map_cons, List.nodup_cons] at hnd
    obtain ⟨hnotin, hnd⟩ := hnd
    rw [execMerge_cons]
    rcases List.mem_cons.mp hr with rfl | hr'
    · apply update_foldl_preserve idx cols rs _ _ ?_
        (mergeStep_update_establish idx cols tbl r hwf)
      intro x hx he
      have h2 : rowKey idx ⟨cols, cols, OnDup.update cols⟩ x
          = rowKey idx ⟨cols, cols, OnDup.update cols⟩ r := he
      exact hnotin (by
        rw [← h2]
        exact List.mem_map_of_mem _ hx)
    · exact ih (mergeStep idx _ tbl r0)
        (mergeStep_update_wf idx cols tbl r0 hwf) hnd r hr'

/-- Claim C2 (amended: the batch's unique-index values are pairwise distinct,
and the target rows carry exactly the statement's insert columns): under the
'update' policy (the spec's `overwrite`) the built insert-from-select leaves,
for every batch row whose unique-index value already exists in the target, a
target row with that value whose non-key columns are all replaced by the
batch's values; and every batch row whose unique-index value is new ends up
present with exactly its values. -/
theorem spec_c2_overwrite_semantics (s : List Col) (idx : List String)
    (rows : List SRow) (tbl : DB) (stmt : MergeStmt)
    (hstmt : myInsert s "update" = Except.ok stmt)
    (hnames : (s.map (·.key)).Nodup)
    (hwf : ∀ t ∈ tbl, t.fields.map Prod.fst = stmt.insertCols)
    (hnd : (rows.map (rowKey idx stmt)).Nodup) :
    ∀ r ∈ rows,
      (hasKey idx tbl (rowKey idx stmt r) = true →
        ∃ t ∈ execMerge idx stmt rows tbl,
          keyOf idx t.fields = rowKey idx stmt r ∧ t.fields = selectedRow stmt r)
      ∧ (hasKey idx tbl (rowKey idx stmt r) = false →
        ∃ t ∈ execMerge idx stmt rows tbl,
          keyOf idx t.fields = rowKey idx stmt r ∧ t.fields = selectedRow stmt r) := by
  have hs : stmt = ⟨mergeableNames s, (mergeableCols s).map (·.key),
      OnDup.update (mergeableNames s)⟩ := by
    rw [myInsert, if_pos rfl] at hstmt
    injection hstmt with h
    exact h.symm
  have hsel : (mergeableCols s).map (·.key) = mergeableNames s := by
    rw [mergeableCols_eq s hnames, mergeableNames_eq s hnames]
  have hs2 : stmt = ⟨mergeableNames s, mergeableNames s,
      OnDup.update (mergeableNames s)⟩ := by rw [hs, hsel]
  subst hs2
  intro r hr
  have hp := update_presence idx (mergeableNames s) rows tbl hwf hnd r hr
  rcases hp with ⟨t, ht, hf⟩
  constructor
  · intro _
    exact ⟨t, ht, by rw [hf]; rfl, hf⟩
  · intro _
    exact ⟨t, ht, by rw [hf]; rfl, hf⟩

/-- Witness for C2: schema `(id PK, k, v)`, unique index on `k`, one target
row with `k=1`, a batch updating `k=1` (existing key) and inserting `k=2`
(new key). -/
theorem spec_c2_witness :
    (∃ t ∈ execMerge ["k"] ⟨["k", "v"], ["k", "v"], OnDup.update ["k", "v"]⟩
        [[("k", 1), ("v", 10)], [("k", 2), ("v", 20)]]
        [⟨1, [("k", 1), ("v", 0)]⟩],
      keyOf ["k"] t.fields
          = rowKey ["k"] ⟨["k", "v"], ["k", "v"], OnDup.update ["k", "v"]⟩
            [("k", 1), ("v", 10)]
        ∧ t.fields
          = selectedRow ⟨["k", "v"], ["k", "v"], OnDup.update ["k", "v"]⟩
            [("k", 1), ("v", 10)])
      ∧ (∃ t ∈ execMerge ["k"] ⟨["k", "v"], ["k", "v"], OnDup.update ["k", "v"]⟩
          [[("k", 1), ("v", 10)], [("k", 2), ("v", 20)]]
          [⟨1, [("k", 1), ("v", 0)]⟩],
        keyOf ["k"] t.fields
            = rowKey ["k"] ⟨["k", "v"], ["k", "v"], OnDup.update ["k", "v"]⟩
              [("k", 2), ("v", 20)]
          ∧ t.fields
            = selectedRow ⟨["k", "v"], ["k", "v"], OnDup.update ["k", "v"]⟩
              [("k", 2), ("v", 20)]) :=
  ⟨(spec_c2_overwrite_semantics
      [⟨"id", true, 0⟩, ⟨"k", false, 0⟩, ⟨"v", false, 0⟩] ["k"]
      [[("k", 1), ("v", 10)], [("k", 2), ("v", 20)]]
      [⟨1, [("k", 1), ("v", 0)]⟩]
      ⟨["k", "v"], ["k", "v"], OnDup.update ["k", "v"]⟩
      (by rfl) (by decide) (by decide) (by decide)
      [("k", 1), ("v", 10)] (by decide)).1 (by decide),
    (spec_c2_overwrite_semantics
      [⟨"id", true, 0⟩, ⟨"k", false, 0⟩, ⟨"v", false, 0⟩] ["k"]
      [[("k", 1), ("v", 10)], [("k", 2), ("v", 20)]]
      [⟨1, [("k", 1), ("v", 0)]⟩]
      ⟨["k", "v"], ["k", "v"], OnDup.update ["k", "v"]⟩
      (by rfl) (by decide) (by decide) (by decide)
      [("k", 2), ("v", 20)] (by decide)).2 (by decide)⟩

/-- Counterexample to claim C2 as stated: a batch with two rows carrying the
same new unique-index value (`k=1`, values 10 then 20).  The first row's key
is new, yet after the merge no target row holds its values — the second
source row's duplicate-key update overwrote them — so "every batch row whose
unique-index value is new is inserted" fails. -/
theorem spec_c2_counterexample :
    myInsert [⟨"id", true, 0⟩, ⟨"k", false, 0⟩, ⟨"v", false, 0⟩] "update"
        = Except.ok ⟨["k", "v"], ["k", "v"], OnDup.update ["k", "v"]⟩
      ∧ ¬ (∀ r ∈ ([[("k", 1), ("v", 10)], [("k", 1), ("v", 20)]] : List SRow),
          hasKey ["k"] ([] : DB)
              (rowKey ["k"] ⟨["k", "v"], ["k", "v"], OnDup.update ["k", "v"]⟩ r) = false →
          ∃ t ∈ execMerge ["k"] ⟨["k", "v"], ["k", "v"], OnDup.update ["k", "v"]⟩
              [[("k", 1), ("v", 10)], [("k", 1), ("v", 20)]] ([] : DB),
            t.fields
              = selectedRow ⟨["k", "v"], ["k", "v"], OnDup.update ["k", "v"]⟩ r) := by
  exact ⟨by rfl, by decide⟩

end MySQLMethod
